import Mathlib

/-! Shallow embedding of the report-synthesis engine of report.py:
the column-name classifier, the row grouper and pivoter, the format
resolver, the table and chart builders, and the query-metadata reader.
Python frozensets of (column, str(value)) pairs are embedded as canonical
(sorted, deduplicated) lists of pairs, and the Python orderings used by
sorted(...) are embedded explicitly. -/

/-- Cell values delivered by the query collaborator: null, a numeric
scalar, or text; the numeric case is embedded as an integer. -/
inductive Val where
  | vnone : Val
  | vnum : Int → Val
  | vstr : String → Val
deriving DecidableEq, Repr

/-- Stringification str(value) of a cell value as used by the source. -/
def pyStr : Val → String
  | .vnone => "None"
  | .vnum n => toString n
  | .vstr s => s

/-- A result row: a mapping from column name to value. -/
def Row : Type := String → Val

/-- Split a character list at every separator, keeping empty pieces:
str.split with an explicit separator. -/
def splitChar (sep : Char) : List Char → List (List Char)
  | [] => [[]]
  | c :: cs =>
    match splitChar sep cs with
    | [] => [[]]
    | t :: ts => if c = sep then [] :: t :: ts else (c :: t) :: ts

/-- Python name.split(sep) for a one-character separator. -/
def pySplit (s : String) (sep : Char) : List String :=
  (splitChar sep s.toList).map String.mk

/-- The trailing underscore-delimited token: name.split("_").pop(). -/
def suffixOf (name : String) : String :=
  (pySplit name '_').getLastD ""

/-- Python s.endswith(suf). -/
def pyEndsWith (s suf : String) : Bool :=
  suf.toList.isSuffixOf s.toList

/-- Python s.startswith(p). -/
def pyStartsWith (s p : String) : Bool :=
  p.toList.isPrefixOf s.toList

/-- Python substring containment: needle in hay (for string hay). -/
def pyIn (needle hay : String) : Bool :=
  (List.range (hay.toList.length + 1)).any
    (fun i => decide ((hay.toList.drop i).take needle.toList.length = needle.toList))

/-- Is dimension based on the column name suffix. -/
def is_dimension (name : String) : Bool :=
  !(["num2f", "num", "pct", "group", "unit", "err", "label", "pivot"].contains
      (suffixOf name))

/-- Is pivot based on the column name suffix. The source tests
suffix in ("pivot"); the parenthesized operand is the plain string
"pivot", so the test is substring containment. -/
def is_pivot (name : String) : Bool :=
  pyIn (suffixOf name) "pivot"

/-- Is metric based on the column name suffix. -/
def is_metric (name : String) : Bool :=
  ["num2f", "num", "pct", "unit", "err"].contains (suffixOf name)

/-- Is label based on the column name suffix; substring containment in
"label", exactly as in is_pivot. -/
def is_label (name : String) : Bool :=
  pyIn (suffixOf name) "label"

/-- Python word.capitalize(): first character upper-cased, the rest
lower-cased. -/
def pyCapitalize (s : String) : String :=
  match s.toList with
  | [] => ""
  | c :: rest => String.mk (c.toUpper :: rest.map Char.toLower)

/-- Python sep.join(parts). -/
def pyJoin (sep : String) : List String → String
  | [] => ""
  | [x] => x
  | x :: y :: xs => x ++ sep ++ pyJoin sep (y :: xs)

/-- Label from column name: drop a recognized trailing token (the err
token is deliberately absent) and title-case the remaining words. -/
def label_from_name (name : String) : String :=
  let words := pySplit name '_'
  let kept :=
    if ["num2f", "num", "pct", "group", "unit", "label", "pivot"].contains
        (words.getLastD "") then
      words.dropLast
    else words
  pyJoin " " (kept.map pyCapitalize)

/-- A group or pivot key: the canonical (sorted and deduplicated) list of
(column name, stringified value) pairs standing for a Python frozenset of
pairs. -/
abbrev GroupKey := List (String × String)

/-- Python string comparison: strict lexicographic order on the code
points. -/
def strLt : List Char → List Char → Prop
  | [], [] => False
  | [], _ :: _ => True
  | _ :: _, [] => False
  | c :: cs, d :: ds => c.toNat < d.toNat ∨ (c = d ∧ strLt cs ds)

def strLtDec : (a b : List Char) → Decidable (strLt a b)
  | [], [] => isFalse (fun h => h)
  | [], _ :: _ => isTrue True.intro
  | _ :: _, [] => isFalse (fun h => h)
  | c :: cs, d :: ds =>
    have h : Decidable (strLt cs ds) := strLtDec cs ds
    show Decidable (c.toNat < d.toNat ∨ (c = d ∧ strLt cs ds)) from
      @instDecidableOr _ _ inferInstance (@instDecidableAnd _ _ inferInstance h)

instance : DecidableRel strLt := strLtDec

/-- Python comparison of two strings, by code points. -/
def pyLt (a b : String) : Prop := strLt a.toList b.toList

instance : DecidableRel pyLt := fun a b => strLtDec a.toList b.toList

/-- Python tuple comparison (strictly less) on (name, value) pairs. -/
def pairLt (a b : String × String) : Prop :=
  pyLt a.1 b.1 ∨ (a.1 = b.1 ∧ pyLt a.2 b.2)

instance : DecidableRel pairLt := fun a b =>
  inferInstanceAs (Decidable (pyLt a.1 b.1 ∨ (a.1 = b.1 ∧ pyLt a.2 b.2)))

/-- Non-strict pair comparison used to sort the pairs inside one key. -/
def pairLe (a b : String × String) : Prop :=
  pairLt a b ∨ a = b

instance : DecidableRel pairLe := fun a b =>
  inferInstanceAs (Decidable (pairLt a b ∨ a = b))

/-- Python list comparison (less-or-equal) on canonical keys, used by
sorted(groups, key=sorted). -/
def keyLe : GroupKey → GroupKey → Prop
  | [], _ => True
  | _ :: _, [] => False
  | p :: ps, q :: qs => pairLt p q ∨ (p = q ∧ keyLe ps qs)

def keyLeDec : (a b : GroupKey) → Decidable (keyLe a b)
  | [], _ => isTrue True.intro
  | _ :: _, [] => isFalse (fun h => h)
  | p :: ps, q :: qs =>
    have d : Decidable (keyLe ps qs) := keyLeDec ps qs
    show Decidable (pairLt p q ∨ (p = q ∧ keyLe ps qs)) from
      @instDecidableOr _ _ inferInstance (@instDecidableAnd _ _ inferInstance d)

instance : DecidableRel keyLe := keyLeDec

/-- Sorting the pairs of one key (Python sorted on a frozenset of
tuples). -/
def sortPairs (l : List (String × String)) : List (String × String) :=
  List.insertionSort pairLe l

/-- Sorting a collection of keys (Python sorted(groups, key=sorted),
which compares the sorted pair lists lexicographically). -/
def pysort (l : List GroupKey) : List GroupKey :=
  List.insertionSort keyLe l

/-- The canonical form of frozenset((key, str(row[key])) for key in cols). -/
def keyOf (cols : List String) (r : Row) : GroupKey :=
  sortPairs ((cols.map (fun k => (k, pyStr (r k)))).dedup)

/-- Membership test of figures and add_barchart: a row is in a group iff
each (name, value) pair of the key equals str(row[name]). -/
def row_in_group (r : Row) (g : GroupKey) : Bool :=
  g.all (fun p => pyStr (r p.1) == p.2)

/-- The enumerated group keys of figures: sorted(set(...), key=sorted)
over the rows when both group columns and rows exist. The source default
set(frozenset(("", ""))) is the one-element set holding the empty string,
which iterates like the empty key, embedded as the empty pair list. -/
def figuresGroups (group_by : List String) (rows : List Row) : List GroupKey :=
  if group_by.isEmpty || rows.isEmpty then [[]]
  else pysort ((rows.map (keyOf group_by)).dedup)

/-- Lower-casing of a name, Python name.lower(). -/
def pyLower (s : String) : String :=
  String.mk (s.toList.map Char.toLower)

/-- Resolve the tick format from the unit or unit_group value of the
active group key (canonical key order stands in for the frozenset
iteration order; .pop() takes the last listed value, or the empty
default). -/
def format_unit (g : GroupKey) : String :=
  let units := (g.filter (fun p => ["unit", "unit_group"].contains p.1)).map
    (fun p => p.2)
  let u := units.getLastD ""
  if u = "MILLISECONDS" then "g"
  else if u = "BYTES" then ".2s"
  else if u = "PERCENT" then ".2%"
  else if u = "QUERY_PER_SECOND" then ".2f"
  else "g"

/-- Column format expression: the suffix is popped off the lower-cased
word list before the memory and bytes membership test runs on the
remaining words. -/
def column_format (name : String) (g : GroupKey) : String :=
  let lcname := pyLower name
  let words := pySplit lcname '_'
  let suf := words.getLastD ""
  let rest := words.dropLast
  if suf = "num2f" then ".2f"
  else if suf = "err" then ".2f"
  else if suf = "pct" then ".2%"
  else if suf = "unit" then format_unit g
  else if rest.contains "memory" || rest.contains "bytes" then ".2s"
  else ""

/-- Align from column name. -/
def align_from_name (name : String) : String :=
  if is_metric name then "right" else "left"

/-- Python s[:n]. -/
def pyTake (s : String) (n : Nat) : String :=
  String.mk (s.toList.take n)

/-- Shorten a long or multi-line value for hover text. -/
def trim_long (v : Val) : String :=
  let s := pyStr v
  if 150 < s.toList.length || s.toList.contains '\n' then pyTake s 150 ++ "..."
  else s

/-- A rendered table header. -/
structure Header where
  name : String
  value : String
  css_class : String
  md_class : String
deriving DecidableEq, Repr

/-- A rendered table cell: the dict produced by table_entry. -/
structure Cell where
  value : Option Val
  css_class : String
deriving DecidableEq, Repr

/-- The table value object handed to the rendering collaborator. -/
structure Table where
  headers : List Header
  rows : List (List Cell)
  title : String
deriving DecidableEq, Repr

/-- Python s.strip(chr) for the newline character. -/
def stripNl (s : String) : String :=
  String.mk
    (((s.toList.dropWhile (fun c => c == '\n')).reverse.dropWhile
        (fun c => c == '\n')).reverse)

/-- Per-cell rendering: null cell, numeric cell, short or link text kept
verbatim, long multi-line text collapsed into a disclosure widget. -/
def table_entry (item : Val) (css : String) : Cell :=
  match item with
  | .vnone => { value := none, css_class := css }
  | .vnum n => { value := some (.vnum n), css_class := css ++ " numeric" }
  | .vstr s =>
    let trimmed := stripNl s
    if pyEndsWith trimmed "</a>" || trimmed.toList.count '\n' < 5 then
      { value := some (.vstr trimmed), css_class := css }
    else
      let summary := String.mk (trimmed.toList.takeWhile (fun c => c != '\n'))
      { value := some (.vstr ("<details><summary>" ++ summary ++
          "</summary><pre>" ++ trimmed ++ "</pre></details>")),
        css_class := "align-left" }

/-- The joined Label: value title of a group key (the canonical key is
already in the order Python sorted(group) produces). -/
def groupTitle (g : GroupKey) : String :=
  pyJoin ", " (g.map (fun p => label_from_name p.1 ++ ": " ++ p.2))

/-- The table builder: one header per column, one cell row per data row,
an optional title from a non-empty group key; always returns the one
table it built. -/
def add_table (columns : List String) (rows : List Row) (g : GroupKey) :
    List Table :=
  let headers := columns.map (fun key =>
    { name := key
      value := label_from_name key
      css_class := "align-" ++ align_from_name key
      md_class := if align_from_name key = "left" then ":--" else "--:"
      : Header })
  let cells := rows.map (fun r =>
    headers.map (fun h => table_entry (r h.name) h.css_class))
  let title := if g ≠ [] then groupTitle g else ""
  [{ headers := headers, rows := cells, title := title }]

/-- One bar series of a chart. -/
structure Bar where
  name : String
  x : List String
  y : List Val
  error_y : Option (List Val)
  hovertext : List String
deriving DecidableEq, Repr

/-- The chart value object: its series, the shared y-axis tick format and
the group title. -/
structure Chart where
  traces : List Bar
  yaxis_tickformat : String
  title : String
deriving DecidableEq, Repr

/-- The errors dict of add_barchart: maps the display label obtained by
removing the _err suffix to the err column values over all rows of the
group; a later _err column with the same label overwrites an earlier one
as in a Python dict. -/
def buildErrors (metrics : List String) (rows : List Row) :
    String → Option (List Val) :=
  metrics.foldl
    (fun acc key =>
      if pyEndsWith key "_err" then
        fun l =>
          if l = label_from_name (pyTake key (key.toList.length - 4)) then
            some (rows.map (fun r => r key))
          else acc l
      else acc)
    (fun _ => none)

/-- Emit one bar per metric that does not itself end in _err: x joins the
dimension values in row order, y takes the metric values in row order,
the error array is looked up by display label, hover text joins the
label columns. -/
def add_bar_trace (rows : List Row) (dimensions metrics : List String)
    (errors : String → Option (List Val)) (labels : List String)
    (labelPref : String) : List Bar :=
  let x := rows.map (fun r =>
    pyJoin ", " (dimensions.map (fun key => pyStr (r key))))
  let text := rows.map (fun r =>
    pyJoin "</br>" (labels.map (fun key =>
      label_from_name key ++ ": " ++ trim_long (r key))))
  (metrics.filter (fun m => !(pyEndsWith m "_err"))).map (fun metric =>
    { name := labelPref ++ label_from_name metric
      x := x
      y := rows.map (fun r => r metric)
      error_y := errors (label_from_name metric)
      hovertext := text })

/-- The sorted pivot key sets of add_barchart. -/
def pivotSets (pivot_by : List String) (rows : List Row) : List GroupKey :=
  pysort ((rows.map (keyOf pivot_by)).dedup)

/-- The degenerate group key skipped by the chart builder. -/
def sentinelGroup : GroupKey := [("unit_group", "None")]

/-- The chart builder: no chart without metric columns or for the
degenerate sentinel group; otherwise one chart holding, per sorted pivot
set, one series per non-err metric, with the shared tick format taken
from the last metric column. -/
def add_barchart (columns : List String) (rows : List Row) (g : GroupKey) :
    List Chart :=
  let dimensions := columns.filter is_dimension
  let pivot_by := columns.filter is_pivot
  let metrics := columns.filter is_metric
  let labels := columns.filter is_label
  if metrics = [] then []
  else if g = sentinelGroup then []
  else
    let errors := buildErrors metrics rows
    let traces := (pivotSets pivot_by rows).flatMap (fun ps =>
      let pivot_rows := if ps ≠ [] then rows.filter (fun r => row_in_group r ps)
        else rows
      let labelPref :=
        if ps ≠ [] then
          pyJoin ", " (ps.map (fun p => label_from_name p.1 ++ ": " ++ p.2)) ++ " "
        else ""
      add_bar_trace pivot_rows dimensions metrics errors labels labelPref)
    [{ traces := traces
       yaxis_tickformat := column_format (metrics.getLastD "") g
       title := groupTitle g }]

/-- One renderable artifact of a report entry. -/
inductive Fig where
  | table : Table → Fig
  | chart : Chart → Fig
deriving DecidableEq, Repr

/-- The group columns of figures: the columns ending in _group. -/
def figuresGroupBy (columns : List String) : List String :=
  columns.filter (fun name => pyEndsWith name "_group")

/-- The non-group columns handed to the table and chart builders. -/
def figuresNames (columns : List String) : List String :=
  columns.filter (fun name => !((figuresGroupBy columns).contains name))

/-- Figures from data rows: group by the columns ending in _group, and
per sorted group key emit the table and then any chart over the non-group
columns and the rows of that group. -/
def figures (columns : List String) (rows : List Row) : List Fig :=
  (figuresGroups (figuresGroupBy columns) rows).flatMap (fun g =>
    let group_rows := rows.filter (fun r => row_in_group r g)
    (add_table (figuresNames columns) group_rows g).map Fig.table ++
      (add_barchart (figuresNames columns) group_rows g).map Fig.chart)

/-- The per-chart series names, in emission order. -/
def chartSeriesNames (columns : List String) (rows : List Row)
    (g : GroupKey) : List (List String) :=
  (add_barchart columns rows g).map (fun c => c.traces.map (fun t => t.name))

/-- The tables among a list of artifacts. -/
def figTables : List Fig → List Table
  | [] => []
  | .table t :: fs => t :: figTables fs
  | .chart _ :: fs => figTables fs

/-- The charts among a list of artifacts. -/
def figCharts : List Fig → List Chart
  | [] => []
  | .chart c :: fs => c :: figCharts fs
  | .table _ :: fs => figCharts fs

/-- Python line.lstrip("- "): drop every leading dash or space. -/
def lstripDashSpace (s : String) : String :=
  String.mk (s.toList.dropWhile (fun c => c == '-' || c == ' '))

/-- The characters Python str.strip() removes (the ASCII whitespace). -/
def pySpace (c : Char) : Bool :=
  [' ', '\t', '\n', '\r', '\x0b', '\x0c'].contains c

/-- Python s.strip(). -/
def pyStrip (s : String) : String :=
  String.mk (((s.toList.dropWhile pySpace).reverse.dropWhile pySpace).reverse)

def splitLinesAux : List Char → List Char → List (List Char)
  | [], acc => if acc = [] then [] else [acc.reverse]
  | c :: cs, acc =>
    if c = '\n' then (acc.reverse ++ ['\n']) :: splitLinesAux cs []
    else splitLinesAux cs (c :: acc)

/-- The lines a Python text file iteration yields, newline terminators
kept, no empty trailing line. -/
def linesOf (s : String) : List String :=
  (splitLinesAux s.toList []).map String.mk

/-- The line loop of read_query: leading comment lines before any query
text feed the title, then the description; everything from the first
non-comment line on accumulates into the query body. -/
def rqLoop : List String → String → String → String → String × String × String
  | [], query, title, desc => (pyStrip desc, pyStrip query, pyStrip title)
  | line :: rest, query, title, desc =>
    if pyStartsWith line "--" && query == "" then
      if title == "" then rqLoop rest query (lstripDashSpace line) desc
      else rqLoop rest query title (desc ++ lstripDashSpace line)
    else rqLoop rest (query ++ line) title desc

/-- Read a query text and turn leading comments into a title and a
description; returns (description, query, title) stripped, in the order
of the source return statement. -/
def read_query (contents : String) : String × String × String :=
  rqLoop (linesOf contents) "" "" ""

/-- Concatenation of the lines that reach the query accumulator. -/
def strConcat : List String → String
  | [] => ""
  | l :: ls => l ++ strConcat ls

/-- Sample rows used by the concrete witnesses. -/
def rowA : Row := fun c =>
  if c = "env_group" then .vstr "prod"
  else if c = "mode_pivot" then .vstr "a"
  else if c = "latency_num" then .vnum 10
  else if c = "latency_err" then .vnum 1
  else .vstr "x"

def rowB : Row := fun c =>
  if c = "env_group" then .vstr "dev"
  else if c = "mode_pivot" then .vstr "b"
  else if c = "latency_num" then .vnum 20
  else if c = "latency_err" then .vnum 2
  else .vstr "x"

def rowU : Row := fun c =>
  if c = "unit_group" then .vnone else .vnum 1

/-- Indicator of a role flag. -/
def b2n (b : Bool) : Nat := if b then 1 else 0

/-- How many of the five roles of the classifier hold for a name:
dimension, metric, pivot, label and the group suffix. -/
def roleCount (name : String) : Nat :=
  b2n (is_dimension name) + b2n (is_metric name) + b2n (is_pivot name) +
    b2n (is_label name) + b2n (suffixOf name == "group")

/-- Modelled on the words of the amended C4 claim: the unit format table
MILLISECONDS to generic, BYTES to SI byte scaled, PERCENT to percentage,
QUERY_PER_SECOND to fixed two, anything else generic. -/
def specUnitFormat (u : String) : String :=
  if u = "MILLISECONDS" then "g"
  else if u = "BYTES" then ".2s"
  else if u = "PERCENT" then ".2%"
  else if u = "QUERY_PER_SECOND" then ".2f"
  else "g"

/-- Modelled on the words of the amended C4 claim: the unit or
unit_group value of the active group key. -/
def specGroupUnit (g : GroupKey) : String :=
  ((g.filter (fun p => decide (p.1 = "unit" ∨ p.1 = "unit_group"))).map
      (fun p => p.2)).getLastD ""

/-- Modelled on the words of the amended C4 claim: fixed two decimals for
the num2f or err suffix, percentage for pct, the unit table for unit, and
otherwise SI byte scaling exactly when a token strictly before the final
suffix of the lower-cased underscore-split name is memory or bytes. -/
def specColumnFormat (name : String) (g : GroupKey) : String :=
  let toks := pySplit (pyLower name) '_'
  let suf := toks.getLastD ""
  if suf = "num2f" ∨ suf = "err" then ".2f"
  else if suf = "pct" then ".2%"
  else if suf = "unit" then specUnitFormat (specGroupUnit g)
  else if "memory" ∈ toks.dropLast ∨ "bytes" ∈ toks.dropLast then ".2s"
  else ""

/-! Order theory for the embedded Python comparisons. -/

theorem strLt_irrefl : ∀ l : List Char, ¬ strLt l l
  | [] => fun h => h
  | c :: cs => fun h => by
    rcases h with h | ⟨-, h⟩
    · exact Nat.lt_irrefl _ h
    · exact strLt_irrefl cs h

theorem strLt_trans : ∀ a b c : List Char, strLt a b → strLt b c → strLt a c
  | [], [], _, h₁, _ => absurd h₁ (fun h => h)
  | [], _ :: _, [], _, h₂ => absurd h₂ (fun h => h)
  | [], _ :: _, _ :: _, _, _ => True.intro
  | _ :: _, [], _, h₁, _ => absurd h₁ (fun h => h)
  | _ :: _, _ :: _, [], _, h₂ => absurd h₂ (fun h => h)
  | _ :: as, _ :: bs, _ :: cs, h₁, h₂ => by
    rcases h₁ with h₁ | ⟨rfl, h₁⟩ <;> rcases h₂ with h₂ | ⟨rfl, h₂⟩
    · exact Or.inl (Nat.lt_trans h₁ h₂)
    · exact Or.inl h₁
    · exact Or.inl h₂
    · exact Or.inr ⟨rfl, strLt_trans as bs cs h₁ h₂⟩

theorem strLt_trichot : ∀ a b : List Char, strLt a b ∨ a = b ∨ strLt b a
  | [], [] => Or.inr (Or.inl rfl)
  | [], _ :: _ => Or.inl True.intro
  | _ :: _, [] => Or.inr (Or.inr True.intro)
  | c :: cs, d :: ds => by
    rcases Nat.lt_trichotomy c.toNat d.toNat with h | h | h
    · exact Or.inl (Or.inl h)
    · have hcd : c = d := Char.ext (UInt32.ext h)
      subst hcd
      rcases strLt_trichot cs ds with ht | ht | ht
      · exact Or.inl (Or.inr ⟨rfl, ht⟩)
      · rw [ht]
        exact Or.inr (Or.inl rfl)
      · exact Or.inr (Or.inr (Or.inr ⟨rfl, ht⟩))
    · exact Or.inr (Or.inr (Or.inl h))

theorem pairLt_irrefl (a : String × String) : ¬ pairLt a a := by
  rintro (h | ⟨-, h⟩) <;> exact strLt_irrefl _ h

theorem pairLt_trans {a b c : String × String} (h₁ : pairLt a b)
    (h₂ : pairLt b c) : pairLt a c := by
  rcases h₁ with h₁ | ⟨e₁, h₁⟩ <;> rcases h₂ with h₂ | ⟨e₂, h₂⟩
  · exact Or.inl (strLt_trans _ _ _ h₁ h₂)
  · exact Or.inl (by rw [← e₂]; exact h₁)
  · exact Or.inl (by rw [e₁]; exact h₂)
  · exact Or.inr ⟨e₁.trans e₂, strLt_trans _ _ _ h₁ h₂⟩

theorem pairLt_asymm {a b : String × String} (h₁ : pairLt a b)
    (h₂ : pairLt b a) : False :=
  pairLt_irrefl a (pairLt_trans h₁ h₂)

theorem pairLt_trichot (a b : String × String) :
    pairLt a b ∨ a = b ∨ pairLt b a := by
  obtain ⟨a1, a2⟩ := a
  obtain ⟨b1, b2⟩ := b
  rcases strLt_trichot a1.toList b1.toList with h | h | h
  · exact Or.inl (Or.inl h)
  · have h1 : a1 = b1 := String.ext h
    subst h1
    rcases strLt_trichot a2.toList b2.toList with h2 | h2 | h2
    · exact Or.inl (Or.inr ⟨rfl, h2⟩)
    · have h3 : a2 = b2 := String.ext h2
      subst h3
      exact Or.inr (Or.inl rfl)
    · exact Or.inr (Or.inr (Or.inr ⟨rfl, h2⟩))
  · exact Or.inr (Or.inr (Or.inl h))

instance : IsTotal (String × String) pairLe where
  total a b := by
    rcases pairLt_trichot a b with h | h | h
    · exact Or.inl (Or.inl h)
    · exact Or.inl (Or.inr h)
    · exact Or.inr (Or.inl h)

instance : IsTrans (String × String) pairLe where
  trans a b c h₁ h₂ := by
    rcases h₁ with h₁ | rfl <;> rcases h₂ with h₂ | rfl
    · exact Or.inl (pairLt_trans h₁ h₂)
    · exact Or.inl h₁
    · exact Or.inl h₂
    · exact Or.inr rfl

instance : IsAntisymm (String × String) pairLe where
  antisymm a b h₁ h₂ := by
    rcases h₁ with h₁ | rfl
    · rcases h₂ with h₂ | rfl
      · exact absurd h₂ (fun h => pairLt_asymm h₁ h)
      · rfl
    · rfl

theorem keyLe_total : ∀ a b : GroupKey, keyLe a b ∨ keyLe b a
  | [], _ => Or.inl True.intro
  | _ :: _, [] => Or.inr True.intro
  | p :: ps, q :: qs => by
    rcases pairLt_trichot p q with h | h | h
    · exact Or.inl (Or.inl h)
    · rcases keyLe_total ps qs with ih | ih
      · exact Or.inl (Or.inr ⟨h, ih⟩)
      · exact Or.inr (Or.inr ⟨h.symm, ih⟩)
    · exact Or.inr (Or.inl h)

theorem keyLe_trans : ∀ a b c : GroupKey, keyLe a b → keyLe b c → keyLe a c
  | [], _, _, _, _ => True.intro
  | _ :: _, [], _, h₁, _ => absurd h₁ (fun h => h)
  | _ :: _, _ :: _, [], _, h₂ => absurd h₂ (fun h => h)
  | p :: ps, q :: qs, s :: ss, h₁, h₂ => by
    rcases h₁ with h₁ | ⟨rfl, h₁⟩ <;> rcases h₂ with h₂ | ⟨rfl, h₂⟩
    · exact Or.inl (pairLt_trans h₁ h₂)
    · exact Or.inl h₁
    · exact Or.inl h₂
    · exact Or.inr ⟨rfl, keyLe_trans ps qs ss h₁ h₂⟩

theorem keyLe_antisymm : ∀ a b : GroupKey, keyLe a b → keyLe b a → a = b
  | [], [], _, _ => rfl
  | [], _ :: _, _, h₂ => absurd h₂ (fun h => h)
  | _ :: _, [], h₁, _ => absurd h₁ (fun h => h)
  | p :: ps, q :: qs, h₁, h₂ => by
    rcases h₁ with h₁ | ⟨rfl, h₁⟩
    · rcases h₂ with h₂ | ⟨rfl, h₂⟩
      · exact absurd h₂ (fun h => pairLt_asymm h₁ h)
      · exact absurd h₁ (pairLt_irrefl _)
    · rcases h₂ with h₂ | ⟨-, h₂⟩
      · exact absurd h₂ (pairLt_irrefl _)
      · rw [keyLe_antisymm ps qs h₁ h₂]

instance : IsTotal GroupKey keyLe := ⟨keyLe_total⟩

instance : IsTrans GroupKey keyLe := ⟨keyLe_trans⟩

instance : IsAntisymm GroupKey keyLe := ⟨keyLe_antisymm⟩

/-- Sorting canonical keys is a function of the multiset of keys. -/
theorem pysort_eq_of_perm {l₁ l₂ : List GroupKey} (h : l₁.Perm l₂) :
    pysort l₁ = pysort l₂ :=
  List.eq_of_perm_of_sorted
    (((List.perm_insertionSort keyLe l₁).trans h).trans
      (List.perm_insertionSort keyLe l₂).symm)
    (List.sorted_insertionSort keyLe l₁)
    (List.sorted_insertionSort keyLe l₂)

theorem mem_pysort {g : GroupKey} {l : List GroupKey} :
    g ∈ pysort l ↔ g ∈ l :=
  List.mem_insertionSort keyLe

theorem mem_sortPairs {p : String × String} {l : List (String × String)} :
    p ∈ sortPairs l ↔ p ∈ l :=
  List.mem_insertionSort pairLe

/-- The members of a row key are exactly the (column, value) pairs of the
row projected onto the key columns. -/
theorem mem_keyOf {cols : List String} {r : Row} {p : String × String} :
    p ∈ keyOf cols r ↔ ∃ k ∈ cols, p = (k, pyStr (r k)) := by
  rw [keyOf, mem_sortPairs, List.mem_dedup, List.mem_map]
  constructor
  · rintro ⟨k, hk, rfl⟩
    exact ⟨k, hk, rfl⟩
  · rintro ⟨k, hk, rfl⟩
    exact ⟨k, hk, rfl⟩

/-- Rows agreeing on the key columns have the same key. -/
theorem keyOf_congr {cols : List String} {r rr : Row}
    (h : ∀ k ∈ cols, pyStr (r k) = pyStr (rr k)) :
    keyOf cols r = keyOf cols rr := by
  rw [keyOf, keyOf, List.map_congr_left (fun k hk => by rw [h k hk])]

theorem row_in_group_iff {r : Row} {g : GroupKey} :
    row_in_group r g = true ↔ ∀ p ∈ g, pyStr (r p.1) = p.2 := by
  simp [row_in_group, List.all_eq_true]

/-- A row passes the membership test of a key built from another row iff
the two rows agree, stringified, on every key column. -/
theorem row_in_group_keyOf {cols : List String} {r rr : Row} :
    row_in_group r (keyOf cols rr) = true ↔
      ∀ k ∈ cols, pyStr (r k) = pyStr (rr k) := by
  rw [row_in_group_iff]
  constructor
  · intro h k hk
    exact h (k, pyStr (rr k)) (mem_keyOf.mpr ⟨k, hk, rfl⟩)
  · intro h p hp
    obtain ⟨k, hk, rfl⟩ := mem_keyOf.mp hp
    exact h k hk

theorem row_in_group_self {cols : List String} {r : Row} :
    row_in_group r (keyOf cols r) = true :=
  row_in_group_keyOf.mpr (fun _ _ => rfl)

theorem isEmpty_false_of_ne_nil {α : Type} {l : List α} (h : l ≠ []) :
    l.isEmpty = false := by
  cases l with
  | nil => exact absurd rfl h
  | cons a t => rfl

/-- In the main case the enumerated keys are the keys of the rows. -/
theorem figuresGroups_eq {group_by : List String} {rows : List Row}
    (h1 : group_by ≠ []) (h2 : rows ≠ []) :
    figuresGroups group_by rows = pysort ((rows.map (keyOf group_by)).dedup) := by
  rw [figuresGroups, isEmpty_false_of_ne_nil h1, isEmpty_false_of_ne_nil h2]
  rfl

theorem figuresGroups_mem {group_by : List String} {rows : List Row}
    {g : GroupKey} (h1 : group_by ≠ []) (h2 : rows ≠ []) :
    g ∈ figuresGroups group_by rows ↔ ∃ rr ∈ rows, g = keyOf group_by rr := by
  rw [figuresGroups_eq h1 h2, mem_pysort, List.mem_dedup, List.mem_map]
  constructor
  · rintro ⟨rr, hrr, rfl⟩
    exact ⟨rr, hrr, rfl⟩
  · rintro ⟨rr, hrr, rfl⟩
    exact ⟨rr, hrr, rfl⟩


/-- C1: for every row set and every set of group columns the grouping of
figures is a true partition: every input row satisfies row_in_group for
exactly one of the enumerated group keys, and the union of the per-group
row subsets equals the input row set. -/
theorem figures_grouping_is_partition (columns : List String) (rows : List Row) :
    (∀ r ∈ rows,
      ∃! g, g ∈ figuresGroups (columns.filter (fun n => pyEndsWith n "_group")) rows ∧
        row_in_group r g = true) ∧
    (∀ x : Row,
      (∃ g ∈ figuresGroups (columns.filter (fun n => pyEndsWith n "_group")) rows,
        x ∈ rows.filter (fun rr => row_in_group rr g)) ↔ x ∈ rows) := by
  set gb := columns.filter (fun n => pyEndsWith n "_group") with hgb
  by_cases hempty : gb = [] ∨ rows = []
  · have hgs : figuresGroups gb rows = [[]] := by
      rw [figuresGroups]
      rcases hempty with h | h <;> simp [h]
    constructor
    · intro r hr
      refine ⟨[], ⟨by rw [hgs]; exact List.mem_singleton.mpr rfl, rfl⟩, ?_⟩
      rintro y ⟨hy, -⟩
      rw [hgs] at hy
      exact List.mem_singleton.mp hy
    · intro x
      rw [hgs]
      constructor
      · rintro ⟨g, -, hx⟩
        exact (List.mem_filter.mp hx).1
      · intro hx
        exact ⟨[], List.mem_singleton.mpr rfl, List.mem_filter.mpr ⟨hx, rfl⟩⟩
  · push_neg at hempty
    obtain ⟨h1, h2⟩ := hempty
    constructor
    · intro r hr
      refine ⟨keyOf gb r,
        ⟨(figuresGroups_mem h1 h2).mpr ⟨r, hr, rfl⟩, row_in_group_self⟩, ?_⟩
      rintro y ⟨hy, hyr⟩
      obtain ⟨rr, -, rfl⟩ := (figuresGroups_mem h1 h2).mp hy
      exact (keyOf_congr (row_in_group_keyOf.mp hyr)).symm
    · intro x
      constructor
      · rintro ⟨g, -, hx⟩
        exact (List.mem_filter.mp hx).1
      · intro hx
        exact ⟨keyOf gb x, (figuresGroups_mem h1 h2).mpr ⟨x, hx, rfl⟩,
          List.mem_filter.mpr ⟨hx, row_in_group_self⟩⟩

/-- Witness for C1 at a concrete column list and row pair. -/
theorem figures_grouping_is_partition_witness :
    (rowA ∈ [rowA, rowB]) ∧
    (∃! g, g ∈ figuresGroups
        (["env_group", "latency_num"].filter (fun n => pyEndsWith n "_group"))
        [rowA, rowB] ∧
      row_in_group rowA g = true) :=
  ⟨List.mem_cons_self _ _,
    (figures_grouping_is_partition ["env_group", "latency_num"] [rowA, rowB]).1
      rowA (List.mem_cons_self _ _)⟩


theorem contains_eq_false {l : List String} {s : String} (h : s ∉ l) :
    l.contains s = false := by
  cases hc : l.contains s
  · rfl
  · exact absurd (List.elem_iff.mp hc) h

/-- C2 counterexample: the suffix p is a substring of the word pivot, so
the name x_p is classified both as a dimension and as a pivot; the
classifier does not assign exactly one role. -/
theorem classifier_two_roles_counterexample :
    is_dimension "x_p" = true ∧ is_pivot "x_p" = true ∧ roleCount "x_p" = 2 := by
  decide

/-- C2 amended: every name gets at least one of the five roles, the role
is unique whenever the suffix is not a proper substring of the words
pivot or label (is_pivot and is_label test substring containment), and a
suffix outside the known vocabulary always yields the dimension role. -/
theorem classifier_roles_amended (name : String) :
    1 ≤ roleCount name ∧
    (¬(pyIn (suffixOf name) "pivot" = true ∧ suffixOf name ≠ "pivot") →
     ¬(pyIn (suffixOf name) "label" = true ∧ suffixOf name ≠ "label") →
     roleCount name = 1) ∧
    ((∀ v ∈ ["num2f", "num", "pct", "group", "unit", "err", "label", "pivot"],
        suffixOf name ≠ v) →
      is_dimension name = true) := by
  by_cases h1 : suffixOf name = "num2f"
  · simp only [roleCount, is_dimension, is_metric, is_pivot, is_label, h1]
    decide
  by_cases h2 : suffixOf name = "num"
  · simp only [roleCount, is_dimension, is_metric, is_pivot, is_label, h2]
    decide
  by_cases h3 : suffixOf name = "pct"
  · simp only [roleCount, is_dimension, is_metric, is_pivot, is_label, h3]
    decide
  by_cases h4 : suffixOf name = "group"
  · simp only [roleCount, is_dimension, is_metric, is_pivot, is_label, h4]
    decide
  by_cases h5 : suffixOf name = "unit"
  · simp only [roleCount, is_dimension, is_metric, is_pivot, is_label, h5]
    decide
  by_cases h6 : suffixOf name = "err"
  · simp only [roleCount, is_dimension, is_metric, is_pivot, is_label, h6]
    decide
  by_cases h7 : suffixOf name = "label"
  · simp only [roleCount, is_dimension, is_metric, is_pivot, is_label, h7]
    decide
  by_cases h8 : suffixOf name = "pivot"
  · simp only [roleCount, is_dimension, is_metric, is_pivot, is_label, h8]
    decide
  have hnot8 : suffixOf name ∉
      ["num2f", "num", "pct", "group", "unit", "err", "label", "pivot"] := by
    simp only [List.mem_cons, List.not_mem_nil, or_false, not_or]
    exact ⟨h1, h2, h3, h4, h5, h6, h7, h8⟩
  have hnot5 : suffixOf name ∉ ["num2f", "num", "pct", "unit", "err"] := by
    simp only [List.mem_cons, List.not_mem_nil, or_false, not_or]
    exact ⟨h1, h2, h3, h5, h6⟩
  have hd : is_dimension name = true := by
    simp only [is_dimension, contains_eq_false hnot8, Bool.not_false]
  have hm : is_metric name = false := contains_eq_false hnot5
  have hg : (suffixOf name == "group") = false := beq_eq_false_iff_ne.mpr h4
  refine ⟨?_, ?_, fun _ => hd⟩
  · cases hp : is_pivot name <;> cases hl : is_label name <;>
      simp [roleCount, hd, hm, hg, hp, hl, b2n]
  · intro hpiv hlab
    have hp : is_pivot name = false := by
      cases hp : is_pivot name
      · rfl
      · exact absurd ⟨hp, h8⟩ hpiv
    have hl : is_label name = false := by
      cases hl : is_label name
      · rfl
      · exact absurd ⟨hl, h7⟩ hlab
    simp [roleCount, hd, hm, hg, hp, hl, b2n]

/-- Witness for C2 amended at a concrete name with a vocabulary suffix. -/
theorem classifier_roles_amended_witness :
    ¬(pyIn (suffixOf "a_num") "pivot" = true ∧ suffixOf "a_num" ≠ "pivot") ∧
    ¬(pyIn (suffixOf "a_num") "label" = true ∧ suffixOf "a_num" ≠ "label") ∧
    roleCount "a_num" = 1 :=
  ⟨by decide, by decide,
    (classifier_roles_amended "a_num").2.1 (by decide) (by decide)⟩

theorem splitChar_of_not_mem {sep : Char} : ∀ {l : List Char}, sep ∉ l →
    splitChar sep l = [l]
  | [], _ => rfl
  | c :: cs, h => by
    have hc : ¬(c = sep) := fun e => h (e ▸ List.mem_cons_self c cs)
    have ih : splitChar sep cs = [cs] :=
      splitChar_of_not_mem (fun hm => h (List.mem_cons_of_mem c hm))
    rw [splitChar, ih]
    simp [hc]

theorem mk_toList (s : String) : String.mk s.toList = s := rfl

/-- C8 counterexample: the underscore-free name num is classified as a
metric, not as a dimension, because the suffix of such a name is the
whole name, not the empty string. -/
theorem no_underscore_counterexample :
    ("num".toList.contains '_') = false ∧
    is_metric "num" = true ∧ is_dimension "num" = false := by
  decide

/-- C8 amended: a name without an underscore has itself as the suffix;
it is a dimension exactly when the whole name is outside the suffix
vocabulary, and a metric exactly when the whole name is one of the
metric suffixes. -/
theorem no_underscore_amended (name : String)
    (h : ('_' ∈ name.toList) = False) :
    suffixOf name = name ∧
    (is_dimension name = true ↔
      name ∉ ["num2f", "num", "pct", "group", "unit", "err", "label", "pivot"]) ∧
    (is_metric name = true ↔ name ∈ ["num2f", "num", "pct", "unit", "err"]) := by
  have hnm : '_' ∉ name.toList := by
    intro hx
    rw [h] at hx
    exact hx
  have hs : suffixOf name = name := by
    rw [suffixOf, pySplit, splitChar_of_not_mem hnm]
    simp [mk_toList]
  refine ⟨hs, ?_, ?_⟩
  · rw [is_dimension, hs]
    cases hc : List.contains _ name <;> simp_all [List.elem_iff]
  · rw [is_metric, hs]
    cases hc : List.contains _ name <;> simp_all [List.elem_iff]

/-- Witness for C8 amended at a concrete underscore-free name. -/
theorem no_underscore_amended_witness :
    (('_' ∈ "foo".toList) = False) ∧ suffixOf "foo" = "foo" :=
  ⟨by simp, (no_underscore_amended "foo" (by simp)).1⟩


/-- C4 counterexample: the split of peak_memory contains the token
memory and its suffix is none of num2f, err, pct, unit, yet the resolver
returns the generic format, not the SI byte format the claim prescribes,
because the source pops the suffix off the word list before the token
test. -/
theorem column_format_memory_counterexample :
    ((pySplit (pyLower "peak_memory") '_').contains "memory") = true ∧
    (suffixOf "peak_memory" ∉ ["num2f", "err", "pct", "unit"]) ∧
    column_format "peak_memory" [] = "" ∧
    column_format "peak_memory" [] ≠ ".2s" := by
  decide

theorem format_unit_eq_spec (g : GroupKey) :
    format_unit g = specUnitFormat (specGroupUnit g) := by
  rw [format_unit, specUnitFormat, specGroupUnit]
  have hf : g.filter (fun p => ["unit", "unit_group"].contains p.1) =
      g.filter (fun p => decide (p.1 = "unit" ∨ p.1 = "unit_group")) := by
    apply List.filter_congr
    intro p _
    cases hp : (["unit", "unit_group"].contains p.1) <;>
      simp [List.contains, List.elem_eq_mem] at hp ⊢ <;> tauto
  rw [hf]


theorem empty_append_str (s : String) : "" ++ s = s :=
  String.ext (by simp [String.data_append])

theorem append_empty_str (s : String) : s ++ "" = s :=
  String.ext (by simp [String.data_append])

theorem append_ne_empty {q : String} (l : String) (h : q ≠ "") : q ++ l ≠ "" := by
  intro he
  apply h
  have h2 : q.data ++ l.data = [] := by
    simpa [String.data_append] using congrArg String.data he
  exact String.ext (List.append_eq_nil.mp h2).1

/-- Once the query accumulator is non-empty every remaining line, comment
or not, is appended to the query body. -/
theorem rqLoop_query_ne : ∀ (ls : List String) (q t d : String), q ≠ "" →
    rqLoop ls q t d = (pyStrip d, pyStrip (q ++ strConcat ls), pyStrip t)
  | [], q, t, d, _ => by rw [rqLoop, strConcat, append_empty_str]
  | line :: ls, q, t, d, hq => by
    have hbe : (q == "") = false := beq_eq_false_iff_ne.mpr hq
    rw [rqLoop, hbe, Bool.and_false]
    simp only [Bool.false_eq_true, if_false]
    rw [rqLoop_query_ne ls (q ++ line) t d (append_ne_empty line hq), strConcat,
      String.append_assoc]

/-- The leading comment lines only move title and description state; the
query accumulator stays empty. -/
theorem rqLoop_comments : ∀ (pre : List String) (t d : String) (ls : List String),
    (∀ l ∈ pre, pyStartsWith l "--" = true) →
    ∃ tt dd, rqLoop (pre ++ ls) "" t d = rqLoop ls "" tt dd
  | [], t, d, ls, _ => ⟨t, d, rfl⟩
  | line :: pre, t, d, ls, h => by
    have hline : pyStartsWith line "--" = true := h line (List.mem_cons_self _ _)
    have hrest : ∀ l ∈ pre, pyStartsWith l "--" = true :=
      fun l hl => h l (List.mem_cons_of_mem _ hl)
    rw [List.cons_append, rqLoop, hline]
    simp only [Bool.true_and, beq_self_eq_true, if_true]
    cases ht : (t == "")
    · simp only [Bool.false_eq_true, if_false]
      exact rqLoop_comments pre t (d ++ lstripDashSpace line) ls hrest
    · simp only [if_true]
      exact rqLoop_comments pre (lstripDashSpace line) d ls hrest

/-- C5: read_query on the contents with a title line, a description line
and a select statement yields that title, description and body; and in
general the first non-comment line ends metadata capture, after which
every line, including later comment lines, is part of the query body
verbatim (up to the final strip). -/
theorem read_query_metadata (contents : String) (pre : List String)
    (l0 : String) (rest : List String)
    (hsplit : linesOf contents = pre ++ l0 :: rest)
    (hpre : ∀ l ∈ pre, pyStartsWith l "--" = true)
    (hl0 : pyStartsWith l0 "--" = false) (hne : l0 ≠ "") :
    read_query "-- Title\n-- Desc line\nSELECT 1" =
      ("Desc line", "SELECT 1", "Title") ∧
    (read_query contents).2.1 = pyStrip (l0 ++ strConcat rest) := by
  refine ⟨by decide, ?_⟩
  rw [read_query, hsplit]
  obtain ⟨tt, dd, heq⟩ := rqLoop_comments pre "" "" (l0 :: rest) hpre
  rw [heq, rqLoop, hl0]
  simp only [Bool.false_and, Bool.false_eq_true, if_false]
  rw [empty_append_str, rqLoop_query_ne rest l0 tt dd hne]

/-- Witness for C5 at a concrete file with a later comment line inside
the body. -/
theorem read_query_metadata_witness :
    (linesOf "-- c\nSELECT 2\n-- later\n" =
      ["-- c\n"] ++ "SELECT 2\n" :: ["-- later\n"]) ∧
    (∀ l ∈ ["-- c\n"], pyStartsWith l "--" = true) ∧
    pyStartsWith "SELECT 2\n" "--" = false ∧ "SELECT 2\n" ≠ "" ∧
    (read_query "-- c\nSELECT 2\n-- later\n").2.1 =
      pyStrip ("SELECT 2\n" ++ strConcat ["-- later\n"]) :=
  ⟨by decide, by decide, by decide, by decide,
    (read_query_metadata "-- c\nSELECT 2\n-- later\n" ["-- c\n"] "SELECT 2\n"
      ["-- later\n"] (by decide) (by decide) (by decide) (by decide)).2⟩

theorem dedup_const {α β : Type} [DecidableEq α] (b : α) :
    ∀ {l : List β}, l ≠ [] → (l.map (fun _ => b)).dedup = [b]
  | [], h => absurd rfl h
  | [_], _ => by simp
  | x :: y :: t, _ => by
    have ih : ((y :: t).map (fun _ => b)).dedup = [b] :=
      dedup_const b (by simp)
    rw [List.map_cons, List.dedup_cons_of_mem (by simp), ih]

theorem pivotSets_empty_cols {rows : List Row} (h : rows ≠ []) :
    pivotSets [] rows = [[]] := by
  rw [pivotSets,
    show rows.map (keyOf []) = rows.map (fun _ => ([] : GroupKey)) from rfl,
    dedup_const _ h]
  rfl

/-- Every trace of a chart stems from one sorted pivot set and one
non-err metric: its x and y values come from the rows of that pivot
partition (or all rows for the empty pivot key) and its error array is
the errors entry of its display label, built over all rows. -/
theorem add_barchart_trace_shape {columns : List String} {rows : List Row}
    {g : GroupKey} {c : Chart} {t : Bar}
    (hc : c ∈ add_barchart columns rows g) (ht : t ∈ c.traces) :
    ∃ ps ∈ pivotSets (columns.filter is_pivot) rows,
      ∃ m ∈ columns.filter is_metric,
        pyEndsWith m "_err" = false ∧
        t.y = (if ps ≠ [] then rows.filter (fun r => row_in_group r ps)
            else rows).map (fun r => r m) ∧
        t.x = (if ps ≠ [] then rows.filter (fun r => row_in_group r ps)
            else rows).map (fun r =>
              pyJoin ", " ((columns.filter is_dimension).map
                (fun k => pyStr (r k)))) ∧
        t.error_y = buildErrors (columns.filter is_metric) rows
          (label_from_name m) := by
  simp only [add_barchart] at hc
  by_cases hm : columns.filter is_metric = []
  · rw [if_pos hm] at hc
    exact absurd hc (List.not_mem_nil c)
  rw [if_neg hm] at hc
  by_cases hg : g = sentinelGroup
  · rw [if_pos hg] at hc
    exact absurd hc (List.not_mem_nil c)
  rw [if_neg hg] at hc
  obtain rfl := List.mem_singleton.mp hc
  obtain ⟨ps, hps, hts⟩ := List.mem_flatMap.mp ht
  simp only [add_bar_trace] at hts
  obtain ⟨m, hmf, rfl⟩ := List.mem_map.mp hts
  obtain ⟨hmem, herr⟩ := List.mem_filter.mp hmf
  refine ⟨ps, hps, m, hmem, ?_, rfl, rfl, rfl⟩
  simpa using herr

/-- C3: on a row set with the metric latency_num and the column
latency_err the chart holds exactly one series, for latency_num, whose
error array is the latency_err values of the rows in row order; the
pairing is by display label after removing the err suffix; an err column
alone yields a chart with no series at all and no failure; and in
general no trace is ever emitted for a metric ending in _err. -/
theorem error_series_pairing :
    (∀ (rows : List Row) (g : GroupKey), rows ≠ [] → g ≠ sentinelGroup →
      add_barchart ["latency_num", "latency_err"] rows g =
        [{ traces := [{ name := "Latency",
                        x := rows.map (fun _ => ""),
                        y := rows.map (fun r => r "latency_num"),
                        error_y := some (rows.map (fun r => r "latency_err")),
                        hovertext := rows.map (fun _ => "") }],
           yaxis_tickformat := ".2f",
           title := groupTitle g }]) ∧
    (∀ (rows : List Row) (g : GroupKey), rows ≠ [] → g ≠ sentinelGroup →
      add_barchart ["latency_err"] rows g =
        [{ traces := [], yaxis_tickformat := ".2f", title := groupTitle g }]) ∧
    (∀ (columns : List String) (rows : List Row) (g : GroupKey),
      ∀ c ∈ add_barchart columns rows g, ∀ t ∈ c.traces,
        ∃ m ∈ columns.filter is_metric, pyEndsWith m "_err" = false ∧
          ∃ ps ∈ pivotSets (columns.filter is_pivot) rows,
            t.y = (if ps ≠ [] then rows.filter (fun r => row_in_group r ps)
                else rows).map (fun r => r m)) := by
  refine ⟨?_, ?_, ?_⟩
  · intro rows g hrows hg
    simp only [add_barchart]
    rw [if_neg (by decide :
        ¬(["latency_num", "latency_err"].filter is_metric = [])), if_neg hg,
      show ["latency_num", "latency_err"].filter is_pivot = [] from rfl,
      pivotSets_empty_cols hrows, List.flatMap_cons, List.flatMap_nil,
      List.append_nil]
    rfl
  · intro rows g hrows hg
    simp only [add_barchart]
    rw [if_neg (by decide : ¬(["latency_err"].filter is_metric = [])),
      if_neg hg, show ["latency_err"].filter is_pivot = [] from rfl,
      pivotSets_empty_cols hrows, List.flatMap_cons, List.flatMap_nil,
      List.append_nil]
    rfl
  · intro columns rows g c hc t ht
    obtain ⟨ps, hps, m, hmem, herr, hy, -, -⟩ := add_barchart_trace_shape hc ht
    exact ⟨m, hmem, herr, ps, hps, hy⟩

/-- Witness for C3 at a concrete one-row set. -/
theorem error_series_pairing_witness :
    ([rowA] ≠ ([] : List Row)) ∧ (([] : GroupKey) ≠ sentinelGroup) ∧
    add_barchart ["latency_num", "latency_err"] [rowA] [] =
      [{ traces := [{ name := "Latency",
                      x := [""],
                      y := [.vnum 10],
                      error_y := some [.vnum 1],
                      hovertext := [""] }],
         yaxis_tickformat := ".2f",
         title := "" }] :=
  ⟨by simp, by decide,
    error_series_pairing.1 [rowA] [] (by simp) (by decide)⟩

theorem figTables_map_table : ∀ (ts : List Table),
    figTables (ts.map Fig.table) = ts
  | [] => rfl
  | t :: ts => by rw [List.map_cons, figTables, figTables_map_table ts]

theorem figTables_map_chart : ∀ (cs : List Chart),
    figTables (cs.map Fig.chart) = []
  | [] => rfl
  | c :: cs => by rw [List.map_cons, figTables, figTables_map_chart cs]

theorem figCharts_map_table : ∀ (ts : List Table),
    figCharts (ts.map Fig.table) = []
  | [] => rfl
  | t :: ts => by rw [List.map_cons, figCharts, figCharts_map_table ts]

theorem figCharts_map_chart : ∀ (cs : List Chart),
    figCharts (cs.map Fig.chart) = cs
  | [] => rfl
  | c :: cs => by rw [List.map_cons, figCharts, figCharts_map_chart cs]

theorem figTables_append : ∀ (a b : List Fig),
    figTables (a ++ b) = figTables a ++ figTables b
  | [], _ => rfl
  | .table t :: fs, b => by
    rw [List.cons_append, figTables, figTables, figTables_append fs b,
      List.cons_append]
  | .chart c :: fs, b => by
    rw [List.cons_append, figTables, figTables, figTables_append fs b]

theorem figCharts_append : ∀ (a b : List Fig),
    figCharts (a ++ b) = figCharts a ++ figCharts b
  | [], _ => rfl
  | .chart c :: fs, b => by
    rw [List.cons_append, figCharts, figCharts, figCharts_append fs b,
      List.cons_append]
  | .table t :: fs, b => by
    rw [List.cons_append, figCharts, figCharts, figCharts_append fs b]

/-- The chart builder never returns a chart for the unit_group sentinel
key. -/
theorem add_barchart_sentinel (columns : List String) (rows : List Row) :
    add_barchart columns rows sentinelGroup = [] := by
  simp only [add_barchart]
  by_cases hm : columns.filter is_metric = []
  · rw [if_pos hm]
  · rw [if_neg hm]
    simp

/-- C6 counterexample: the claim names the sentinel key (unit, None),
but for that key the chart builder does produce a chart; the key the
source skips is (unit_group, None). -/
theorem sentinel_name_counterexample :
    (add_barchart ["latency_num"] [rowU] [("unit", "None")]).length = 1 ∧
    add_barchart ["latency_num"] [rowU] [("unit_group", "None")] = [] := by
  constructor
  · rfl
  · decide

/-- C6 amended: when the enumerated group set is exactly the single
sentinel key (unit_group, None), the report synthesis yields no chart
object and exactly one table object. -/
theorem sentinel_group_skip (columns : List String) (rows : List Row)
    (h : figuresGroups (figuresGroupBy columns) rows = [sentinelGroup]) :
    figCharts (figures columns rows) = [] ∧
    (figTables (figures columns rows)).length = 1 := by
  have hfig : figures columns rows =
      (add_table (figuresNames columns)
          (rows.filter (fun r => row_in_group r sentinelGroup))
          sentinelGroup).map Fig.table ++
        (add_barchart (figuresNames columns)
          (rows.filter (fun r => row_in_group r sentinelGroup))
          sentinelGroup).map Fig.chart := by
    rw [figures, h, List.flatMap_cons, List.flatMap_nil, List.append_nil]
  rw [hfig, add_barchart_sentinel, figCharts_append, figTables_append,
    figCharts_map_table, figCharts_map_chart, figTables_map_table,
    figTables_map_chart, List.append_nil, List.append_nil]
  exact ⟨rfl, rfl⟩

/-- Witness for C6 amended at a concrete row whose unit_group value is
null. -/
theorem sentinel_group_skip_witness :
    (figuresGroups (figuresGroupBy ["unit_group", "latency_num"]) [rowU] =
      [sentinelGroup]) ∧
    figCharts (figures ["unit_group", "latency_num"] [rowU]) = [] :=
  ⟨by decide,
    (sentinel_group_skip ["unit_group", "latency_num"] [rowU] (by decide)).1⟩

theorem figuresGroups_perm {gb : List String} {rows1 rows2 : List Row}
    (h : rows1.Perm rows2) :
    figuresGroups gb rows1 = figuresGroups gb rows2 := by
  by_cases he : rows2 = []
  · subst he
    rw [h.eq_nil]
  · have h1 : rows1 ≠ [] := fun e => he ((e ▸ h).symm.eq_nil)
    rw [figuresGroups, figuresGroups, isEmpty_false_of_ne_nil h1,
      isEmpty_false_of_ne_nil he]
    cases hgb : gb.isEmpty
    · simp only [Bool.false_or, Bool.false_eq_true, if_false]
      exact pysort_eq_of_perm ((h.map _).dedup)
    · rfl

theorem chartSeriesNames_eq_of_perm {columns : List String} {g : GroupKey}
    {rows1 rows2 : List Row} (h : rows1.Perm rows2) :
    chartSeriesNames columns rows1 g = chartSeriesNames columns rows2 g := by
  have hps : pivotSets (columns.filter is_pivot) rows1 =
      pivotSets (columns.filter is_pivot) rows2 :=
    pysort_eq_of_perm ((h.map _).dedup)
  rw [chartSeriesNames, chartSeriesNames]
  simp only [add_barchart]
  by_cases hm : columns.filter is_metric = []
  · simp only [if_pos hm]
  simp only [if_neg hm]
  by_cases hg : g = sentinelGroup
  · simp only [if_pos hg]
  simp only [if_neg hg]
  have hmap : ∀ (tr : List Bar) (fmt ttl : String),
      List.map (fun c => List.map (fun t => t.name) c.traces)
        [{ traces := tr, yaxis_tickformat := fmt, title := ttl : Chart }] =
      [List.map (fun t => t.name) tr] := fun _ _ _ => rfl
  rw [hmap, hmap]
  have key : ∀ (rows3 : List Row) (errs : String → Option (List Val))
      (pv : GroupKey → List Row) (pref : GroupKey → String),
      ((pivotSets (columns.filter is_pivot) rows3).flatMap (fun ps =>
          add_bar_trace (pv ps) (columns.filter is_dimension)
            (columns.filter is_metric) errs (columns.filter is_label)
            (pref ps))).map (fun t => t.name) =
        (pivotSets (columns.filter is_pivot) rows3).flatMap (fun ps =>
          ((columns.filter is_metric).filter
              (fun m => !(pyEndsWith m "_err"))).map
            (fun m => pref ps ++ label_from_name m)) := by
    intro rows3 errs pv pref
    rw [List.map_flatMap]
    refine congrArg _ (funext fun ps => ?_)
    simp only [add_bar_trace]
    rw [List.map_map]
    rfl
  refine congrArg (fun l => [l]) ?_
  exact (key rows1 _ _ _).trans (by rw [hps]; exact (key rows2 _ _ _).symm)

/-- C7: over row sets that are permutations of each other, figures
renders the group keys in the same sorted order and every chart emits
its series names in the same order: rendering order depends only on the
data, never on the input row order. -/
theorem render_order_deterministic (columns : List String)
    (rows1 rows2 : List Row) (h : rows1.Perm rows2) :
    figuresGroups (figuresGroupBy columns) rows1 =
      figuresGroups (figuresGroupBy columns) rows2 ∧
    ∀ g : GroupKey,
      chartSeriesNames (figuresNames columns)
          (rows1.filter (fun r => row_in_group r g)) g =
        chartSeriesNames (figuresNames columns)
          (rows2.filter (fun r => row_in_group r g)) g :=
  ⟨figuresGroups_perm h, fun _ => chartSeriesNames_eq_of_perm (h.filter _)⟩

/-- Witness for C7 at two concrete reversed row lists. -/
theorem render_order_deterministic_witness :
    (List.Perm [rowA, rowB] [rowB, rowA]) ∧
    figuresGroups (figuresGroupBy ["env_group", "latency_num"]) [rowA, rowB] =
      figuresGroups (figuresGroupBy ["env_group", "latency_num"]) [rowB, rowA] :=
  ⟨List.Perm.swap rowB rowA [],
    (render_order_deterministic ["env_group", "latency_num"] [rowA, rowB]
      [rowB, rowA] (List.Perm.swap rowB rowA [])).1⟩

/-- C9 counterexample: for an empty row set with a metric column the
synthesis still appends one chart object (with no series); the claim
says no chart object at all is produced. -/
theorem empty_rows_chart_counterexample :
    (figCharts (figures ["latency_num"] [])).length = 1 := by
  rfl

/-- C9 amended: an empty row set yields exactly one table with headers
only and zero rows, and the computation does not fail; no chart is
produced when the non-group columns contain no metric column, and
exactly one chart, carrying zero series, is produced when they do. -/
theorem empty_rows_amended (columns : List String) :
    (figTables (figures columns [])).length = 1 ∧
    (∀ t ∈ figTables (figures columns []), t.rows = []) ∧
    ((figuresNames columns).filter is_metric = [] →
      figCharts (figures columns []) = []) ∧
    ((figuresNames columns).filter is_metric ≠ [] →
      ∃ c, figCharts (figures columns []) = [c] ∧ c.traces = []) := by
  have hgs : figuresGroups (figuresGroupBy columns) [] = [[]] := by
    rw [figuresGroups]
    simp
  have hfig : figures columns [] =
      (add_table (figuresNames columns) [] []).map Fig.table ++
        (add_barchart (figuresNames columns) [] []).map Fig.chart := by
    rw [figures, hgs, List.flatMap_cons, List.flatMap_nil, List.append_nil]
    rfl
  rw [hfig, figTables_append, figCharts_append, figTables_map_table,
    figTables_map_chart, figCharts_map_table, figCharts_map_chart,
    List.append_nil, List.nil_append]
  refine ⟨rfl, ?_, ?_, ?_⟩
  · intro t htm
    obtain rfl := List.mem_singleton.mp htm
    rfl
  · intro hm
    simp only [add_barchart, if_pos hm]
  · intro hm
    simp only [add_barchart]
    rw [if_neg hm, if_neg (by decide : ¬(([] : GroupKey) = sentinelGroup))]
    exact ⟨_, rfl, rfl⟩

/-- Witness for C9 amended in both the metric and the no-metric case. -/
theorem empty_rows_amended_witness :
    ((figuresNames ["latency_num"]).filter is_metric ≠ []) ∧
    (∃ c, figCharts (figures ["latency_num"] []) = [c] ∧ c.traces = []) ∧
    ((figuresNames ["env"]).filter is_metric = []) ∧
    figCharts (figures ["env"] []) = [] :=
  ⟨by decide, (empty_rows_amended ["latency_num"]).2.2.2 (by decide),
    by decide, (empty_rows_amended ["env"]).2.2.1 (by decide)⟩

theorem buildErrors_aux : ∀ (metrics : List String) (rows : List Row)
    (acc : String → Option (List Val)),
    (∀ l e, acc l = some e → e.length = rows.length) →
    ∀ l e,
      (List.foldl
        (fun acc key =>
          if pyEndsWith key "_err" then
            fun l =>
              if l = label_from_name (pyTake key (key.toList.length - 4)) then
                some (rows.map (fun r => r key))
              else acc l
          else acc) acc metrics) l = some e → e.length = rows.length
  | [], _, _, hacc, l, e, he => hacc l e he
  | key :: ms, rows, acc, hacc, l, e, he => by
    rw [List.foldl_cons] at he
    refine buildErrors_aux ms rows _ ?_ l e he
    intro l2 e2 h2
    by_cases hk : pyEndsWith key "_err" = true
    · rw [if_pos hk] at h2
      have h3 : (if l2 = label_from_name (pyTake key (key.toList.length - 4))
          then some (rows.map (fun r => r key)) else acc l2) = some e2 := h2
      by_cases hl : l2 = label_from_name (pyTake key (key.toList.length - 4))
      · rw [if_pos hl] at h3
        injection h3 with h4
        rw [← h4, List.length_map]
      · rw [if_neg hl] at h3
        exact hacc _ _ h3
    · rw [if_neg hk] at h2
      exact hacc _ _ h2

/-- An error array delivered by the errors dict always spans all rows of
the group. -/
theorem buildErrors_some_length {metrics : List String} {rows : List Row}
    {l : String} {e : List Val}
    (h : buildErrors metrics rows l = some e) : e.length = rows.length :=
  buildErrors_aux metrics rows _ (fun _ _ he => Option.noConfusion he) l e h

theorem sortPairs_ne_nil {l : List (String × String)} (h : l ≠ []) :
    sortPairs l ≠ [] := by
  intro he
  apply h
  have hp := List.perm_insertionSort pairLe l
  have he2 : List.insertionSort pairLe l = [] := he
  rw [he2] at hp
  exact hp.symm.eq_nil

theorem keyOf_ne_nil {cols : List String} (h : cols ≠ []) (r : Row) :
    keyOf cols r ≠ [] := by
  rw [keyOf]
  apply sortPairs_ne_nil
  rw [Ne, List.dedup_eq_nil, List.map_eq_nil_iff]
  exact h

theorem pivotSets_nil_length (rows : List Row) :
    (pivotSets [] rows).length ≤ 1 := by
  cases hr : rows with
  | nil => decide
  | cons x t =>
    rw [pivotSets_empty_cols (by simp)]
    decide

theorem mem_pivotSets_ne_nil {columns : List String} {rows : List Row}
    {ps : GroupKey}
    (hp2 : 2 ≤ (pivotSets (columns.filter is_pivot) rows).length)
    (hps : ps ∈ pivotSets (columns.filter is_pivot) rows) : ps ≠ [] := by
  have hpv : columns.filter is_pivot ≠ [] := by
    intro he
    rw [he] at hp2
    have := pivotSets_nil_length rows
    omega
  rw [pivotSets, mem_pysort, List.mem_dedup, List.mem_map] at hps
  obtain ⟨r, -, rfl⟩ := hps
  exact keyOf_ne_nil hpv r

/-- C10: when a group splits into at least two pivot partitions, every
emitted series takes its x and y values only from the rows of its own
pivot partition, while its error array, when attached, is built over all
rows of the group and its length is the group total row count. -/
theorem pivot_error_scope (columns : List String) (rows : List Row)
    (g : GroupKey)
    (hp2 : 2 ≤ (pivotSets (columns.filter is_pivot) rows).length) :
    ∀ c ∈ add_barchart columns rows g, ∀ t ∈ c.traces,
      (∀ e, t.error_y = some e → e.length = rows.length) ∧
      ∃ ps ∈ pivotSets (columns.filter is_pivot) rows, ps ≠ [] ∧
        ∃ m ∈ columns.filter is_metric,
          t.x = (rows.filter (fun r => row_in_group r ps)).map (fun r =>
            pyJoin ", " ((columns.filter is_dimension).map
              (fun k => pyStr (r k)))) ∧
          t.y = (rows.filter (fun r => row_in_group r ps)).map
            (fun r => r m) := by
  intro c hc t ht
  obtain ⟨ps, hps, m, hm, -, hy, hx, he⟩ := add_barchart_trace_shape hc ht
  have hne : ps ≠ [] := mem_pivotSets_ne_nil hp2 hps
  rw [if_pos hne] at hy hx
  refine ⟨?_, ps, hps, hne, m, hm, hx, hy⟩
  intro e hee
  rw [he] at hee
  exact buildErrors_some_length hee

/-- Witness for C10 at two rows in two distinct pivot partitions. -/
theorem pivot_error_scope_witness :
    2 ≤ (pivotSets
        (["mode_pivot", "latency_num", "latency_err"].filter is_pivot)
        [rowA, rowB]).length ∧
    (∀ c ∈ add_barchart ["mode_pivot", "latency_num", "latency_err"]
        [rowA, rowB] [], ∀ t ∈ c.traces,
      (∀ e, t.error_y = some e → e.length = ([rowA, rowB] : List Row).length) ∧
      ∃ ps ∈ pivotSets
          (["mode_pivot", "latency_num", "latency_err"].filter is_pivot)
          [rowA, rowB], ps ≠ [] ∧
        ∃ m ∈ ["mode_pivot", "latency_num", "latency_err"].filter is_metric,
          t.x = (([rowA, rowB] : List Row).filter
              (fun r => row_in_group r ps)).map (fun r =>
            pyJoin ", "
              ((["mode_pivot", "latency_num", "latency_err"].filter
                  is_dimension).map (fun k => pyStr (r k)))) ∧
          t.y = (([rowA, rowB] : List Row).filter
            (fun r => row_in_group r ps)).map (fun r => r m)) :=
  ⟨by decide,
    pivot_error_scope ["mode_pivot", "latency_num", "latency_err"]
      [rowA, rowB] [] (by decide)⟩

/-- C4 amended: the resolver agrees everywhere with the claim table once
the memory and bytes token test is read over the tokens strictly before
the final suffix. -/
theorem column_format_amended (name : String) (g : GroupKey) :
    column_format name g = specColumnFormat name g := by
  rw [column_format, specColumnFormat, format_unit_eq_spec]
  generalize (pySplit (pyLower name) '_') = toks
  by_cases h1 : toks.getLast?.getD "" = "num2f"
  · simp [h1]
  by_cases h2 : toks.getLast?.getD "" = "err"
  · simp [h1, h2]
  by_cases h3 : toks.getLast?.getD "" = "pct"
  · simp [h1, h2, h3]
  by_cases h4 : toks.getLast?.getD "" = "unit"
  · simp [h1, h2, h3, h4]
  by_cases h5 : "memory" ∈ toks.dropLast
  · simp [h1, h2, h3, h4, h5, List.contains, List.elem_eq_mem]
  by_cases h6 : "bytes" ∈ toks.dropLast
  · simp [h1, h2, h3, h4, h5, h6, List.contains, List.elem_eq_mem]
  · simp [h1, h2, h3, h4, h5, h6, List.contains, List.elem_eq_mem]
